import Mathlib

/-!
Verification of the mpvipc client-side correlation layer (`mpvipc.go`).

The Go package talks to an mpv process over a line-delimited JSON protocol.
This file shallowly embeds the connection state and the operations the
specification's claims are about:

* JSON values and inbound lines, with field-wise decoding mirroring
  `encoding/json` unmarshalling into the `CommandResult` and `Event` structs
  (absent field ⇒ zero value, JSON `null` ⇒ no-op, type mismatch ⇒ decode
  error, later duplicate keys overwrite earlier ones);
* the `Connection` state: stream handle, both id counters, the pending-request
  table (`waitingRequests`) and the listener registry (`eventListeners`);
* the operations `NewConnection`, `Open`, `Close`, `IsClosed`, `SendCommand`,
  `CallAsync`, `Call`, `ListenForEvents` (with its unregistration closure),
  `checkResult`, `checkEvent` and the reader-loop body `listen`;
* a small-step system (`Step` / `run`) interleaving caller operations with
  lines processed by the reader loop, recording every callback invocation in
  a trace so that at-most-once and never-again properties can be stated.

Go `uint` counters are modelled as unbounded naturals (the counters only ever
increase by one; 64-bit wraparound is not modelled).  Callbacks are identified
by the id under which they were registered: each `CallAsync` / `ListenForEvents`
allocates a fresh id, so this identification is one-to-one.
-/

namespace Mpvipc

/-- JSON values, as produced by decoding one line of the wire protocol.
Numbers are modelled as exact rationals (`3.5` is representable). -/
inductive JsonVal where
  | null : JsonVal
  | bool (b : Bool) : JsonVal
  | num (q : ℚ) : JsonVal
  | str (s : String) : JsonVal
  | arr (elems : List JsonVal) : JsonVal
  | obj (fields : List (String × JsonVal)) : JsonVal

/-- One inbound line: either a JSON object (the only well-formed shape the Go
structs decode from) or malformed text on which `json.Unmarshal` errors. -/
inductive Line where
  | obj (fields : List (String × JsonVal)) : Line
  | malformed : Line

/-- Field lookup in a decoded JSON object.  `encoding/json` lets a later
duplicate key overwrite an earlier one, hence the reversed search. -/
def jsonLookup (fields : List (String × JsonVal)) (key : String) : Option JsonVal :=
  (fields.reverse.find? (fun p => p.1 == key)).map (fun p => p.2)

/-- Unmarshalling a JSON value into a Go `string` field: absent field keeps the
zero value `""`, JSON `null` is a no-op (also `""`), a string decodes to
itself, any other shape is a type-mismatch error. -/
def decodeString : Option JsonVal → Option String
  | none => some ""
  | some JsonVal.null => some ""
  | some (JsonVal.str s) => some s
  | some _ => none

/-- Unmarshalling a JSON value into a Go `uint` field: absent or `null` keeps
the zero value, a non-negative integral number decodes, anything else
(fractional, negative, wrong type) is an error. -/
def decodeUint : Option JsonVal → Option Nat
  | none => some 0
  | some JsonVal.null => some 0
  | some (JsonVal.num q) => if q.den = 1 ∧ 0 ≤ q.num then some q.num.toNat else none
  | some _ => none

/-- Unmarshalling into a Go `interface{}` field: any value is accepted;
an absent field leaves the nil zero value, modelled as `JsonVal.null`. -/
def decodeAny : Option JsonVal → JsonVal
  | none => JsonVal.null
  | some v => v

/-- The `CommandResult` struct: `Status` (JSON key "error"), `Data` (key
"data") and `ID` (key "request_id"). -/
structure CommandResult where
  status : String
  data : JsonVal
  id : Nat

/-- `json.Unmarshal` of one line into `CommandResult`: fails on malformed
lines or on a type mismatch in a present field. -/
def decodeCommandResult : Line → Option CommandResult
  | Line.malformed => none
  | Line.obj fs =>
    match decodeString (jsonLookup fs "error"), decodeUint (jsonLookup fs "request_id") with
    | some status, some id => some ⟨status, decodeAny (jsonLookup fs "data"), id⟩
    | _, _ => none

/-- The `Event` struct.  `pfx` models the Go field `Prefix` (JSON key
"prefix"); the other fields keep their Go names. -/
structure Event where
  name : String
  reason : String
  pfx : String
  level : String
  text : String
  id : Nat
  data : JsonVal
  error : String

/-- `json.Unmarshal` of one line into `Event`. -/
def decodeEvent : Line → Option Event
  | Line.malformed => none
  | Line.obj fs =>
    match decodeString (jsonLookup fs "event"), decodeString (jsonLookup fs "reason"),
        decodeString (jsonLookup fs "prefix"), decodeString (jsonLookup fs "level"),
        decodeString (jsonLookup fs "text"), decodeUint (jsonLookup fs "id"),
        decodeString (jsonLookup fs "error") with
    | some name, some reason, some pfx, some level, some text, some id, some err =>
      some ⟨name, reason, pfx, level, text, id, decodeAny (jsonLookup fs "data"), err⟩
    | _, _, _, _, _, _, _ => none

/-- The mutable `Connection` state: stream handle (`client`, `none` when
closed), socket name, both monotonically increasing id counters, the
pending-request table and the listener registry.  The tables store the set of
registered ids; the callback registered under an id is identified by that id
(ids are never reused, so this is faithful). -/
structure ConnState where
  client : Option Nat
  socketName : String
  lastRequest : Nat
  waitingRequests : List Nat
  lastListener : Nat
  eventListeners : List Nat

/-- `NewConnection`: closed state, zero counters, empty tables. -/
def newConnection (socketName : String) : ConnState :=
  { client := none, socketName := socketName, lastRequest := 0, waitingRequests := [],
    lastListener := 0, eventListeners := [] }

/-- `IsClosed`: true iff the stream handle is nil. -/
def isClosed (c : ConnState) : Bool :=
  c.client.isNone

/-- `Open`, with the transport dial outcome supplied by the environment.
Returns the error, the new state, and whether the reader loop was started. -/
def openConn (dial : Except String Nat) (c : ConnState) : Option String × ConnState × Bool :=
  match c.client with
  | some _ => (some "already open", c, false)
  | none =>
    match dial with
    | Except.error e => (some ("can't connect to mpv's socket: " ++ e), c, false)
    | Except.ok h => (none, { c with client := some h }, true)

/-- `Close`: idempotent; closes the stream and nils the handle when open.
The underlying stream close is the transport's business and is modelled as
succeeding. -/
def closeConn (c : ConnState) : Option String × ConnState :=
  match c.client with
  | some _ => (none, { c with client := none })
  | none => (none, c)

/-- What the reader loop does when the scanner stops (read failure or end of
stream): it calls `Close` on the connection. -/
def listenTerminate (c : ConnState) : Option String × ConnState :=
  closeConn c

/-- One write performed on the stream by `SendCommand`: the encoded
`commandRequest` line, or the `"\n"` terminator. -/
inductive WireOut where
  | payload (command : List JsonVal) (id : Nat) : WireOut
  | terminator : WireOut

/-- `SendCommand`, with the outcome of each of the two stream writes supplied
by the environment (`none` = success, `some e` = write error `e`).  Returns
the error, the list of writes actually performed, and the (unmodified)
connection state.  `json.Marshal` of a `commandRequest` whose arguments are
JSON-representable values always succeeds, so the encode-error branch never
fires in this model. -/
def sendCommand (w1 w2 : Option String) (c : ConnState) (id : Nat) (args : List JsonVal) :
    Option String × List WireOut × ConnState :=
  match c.client with
  | none => (some "trying to send command on closed mpv client", [], c)
  | some _ =>
    match w1 with
    | some e => (some ("can't write command: " ++ e), [WireOut.payload args id], c)
    | none =>
      match w2 with
      | some e => (some ("can't terminate command: " ++ e),
          [WireOut.payload args id, WireOut.terminator], c)
      | none => (none, [WireOut.payload args id, WireOut.terminator], c)

/-- One recorded invocation of a pending-request completion callback:
the id under which the callback was registered, the `CommandResult` the
reader loop matched to it, and the `(v, err)` pair the user callback `f`
actually received. -/
structure ResultInvocation where
  cbId : Nat
  result : CommandResult
  value : JsonVal
  err : Option String

/-- The value the wrapped callback passes to `f`: the result's data on
success status, nil otherwise. -/
def completionValue (r : CommandResult) : JsonVal :=
  if r.status = "success" then r.data else JsonVal.null

/-- The error the wrapped callback passes to `f`: nil on success status,
`fmt.Errorf("mpv error: %s", r.Status)` otherwise. -/
def completionError (r : CommandResult) : Option String :=
  if r.status = "success" then none else some ("mpv error: " ++ r.status)

/-- The whole system: the connection state plus the trace of completion
callback invocations and the trace of event listener invocations
(listener id paired with the event it received). -/
structure Sys where
  conn : ConnState
  resultTrace : List ResultInvocation
  eventTrace : List (Nat × Event)

/-- A fresh system around `NewConnection`. -/
def initSys (socketName : String) : Sys :=
  { conn := newConnection socketName, resultTrace := [], eventTrace := [] }

/-- `CallAsync`: allocates the next request id under the lock, registers the
wrapped completion callback when `f` is non-nil, releases the lock, then runs
`SendCommand` (whose two write outcomes come from the environment).  Returns
the send error; note that a send failure does not unregister the callback. -/
def callAsync (hasF : Bool) (w1 w2 : Option String) (args : List JsonVal) (s : Sys) :
    Option String × Sys :=
  let id := s.conn.lastRequest + 1
  let conn1 : ConnState :=
    { s.conn with
      lastRequest := id
      waitingRequests := if hasF then id :: s.conn.waitingRequests else s.conn.waitingRequests }
  ((sendCommand w1 w2 conn1 id args).1, { s with conn := conn1 })

/-- What `Call` does from the caller's point of view. -/
inductive CallReturn where
  /-- `Call` returned, with the values of the named returns `(data, err)`. -/
  | returned (data : JsonVal) (err : Option String) : CallReturn
  /-- `Call` is blocked on the `finish` channel, waiting for the completion
  registered under the given request id to fire. -/
  | blockedOn (id : Nat) : CallReturn

/-- `Call`: runs `CallAsync` with a completion that stores `(v, e)` into the
named returns and signals `finish`.  When `CallAsync` reports a send error the
source executes `return nil, err` — it returns the named `err`, which is still
nil at that point, rather than the send error `callErr`.  Otherwise the caller
blocks on `finish`. -/
def call (w1 w2 : Option String) (args : List JsonVal) (s : Sys) : CallReturn × Sys :=
  let res := callAsync true w1 w2 args s
  match res.1 with
  | some _ => (CallReturn.returned JsonVal.null none, res.2)
  | none => (CallReturn.blockedOn res.2.conn.lastRequest, res.2)

/-- `ListenForEvents`: allocates the next listener id under the lock and
registers the callback; returns the new id (the one the unregistration
closure captures). -/
def listenForEvents (s : Sys) : Nat × Sys :=
  let id := s.conn.lastListener + 1
  (id, { s with conn :=
    { s.conn with
      lastListener := id
      eventListeners := id :: s.conn.eventListeners } })

/-- The unregistration closure returned by `ListenForEvents`, invoked for the
captured id: deletes the registry entry under the lock (Go's `delete` on an
absent key is a no-op). -/
def unlisten (uid : Nat) (s : Sys) : Sys :=
  { s with conn := { s.conn with eventListeners := s.conn.eventListeners.erase uid } }

/-- `checkResult`: decode the line as a `CommandResult`; skip on decode error
or empty status; look up the pending callback under the lock, release the
lock, and invoke it if present.  The wrapped callback calls `f` with the
success data or the protocol error, then deletes its own table entry under
the lock. -/
def checkResult (s : Sys) (l : Line) : Sys :=
  match decodeCommandResult l with
  | none => s
  | some r =>
    if r.status = "" then s
    else if r.id ∈ s.conn.waitingRequests then
      { s with
        conn := { s.conn with waitingRequests := s.conn.waitingRequests.erase r.id }
        resultTrace := s.resultTrace ++ [⟨r.id, r, completionValue r, completionError r⟩] }
    else s

/-- `checkEvent`: decode the line as an `Event`; skip on decode error or empty
name; otherwise, holding the lock, invoke every registered listener with the
event. -/
def checkEvent (s : Sys) (l : Line) : Sys :=
  match decodeEvent l with
  | none => s
  | some e =>
    if e.name = "" then s
    else { s with eventTrace := s.eventTrace ++ s.conn.eventListeners.map (fun lid => (lid, e)) }

/-- The reader-loop body for one scanned line: `checkEvent` then
`checkResult`, both attempted unconditionally. -/
def processLine (s : Sys) (l : Line) : Sys :=
  checkResult (checkEvent s l) l

/-! ### Interleavings

A `Step` is one atomic thing the system can do: a caller runs one façade
operation, or the reader loop processes one inbound line.  Since the reader
loop is the only task that dispatches, and each dispatch runs to completion,
this sequential interleaving is faithful to the claims' setting. -/

/-- One atomic step of the system. -/
inductive Step where
  | callAsyncStep (hasF : Bool) (w1 w2 : Option String) (args : List JsonVal) : Step
  | procLine (l : Line) : Step
  | listenStep : Step
  | unlistenStep (uid : Nat) : Step
  | openStep (dial : Except String Nat) : Step
  | closeStep : Step

/-- Execute one step. -/
def stepRun (s : Sys) : Step → Sys
  | Step.callAsyncStep hasF w1 w2 args => (callAsync hasF w1 w2 args s).2
  | Step.procLine l => processLine s l
  | Step.listenStep => (listenForEvents s).2
  | Step.unlistenStep uid => unlisten uid s
  | Step.openStep dial => { s with conn := (openConn dial s.conn).2.1 }
  | Step.closeStep => { s with conn := (closeConn s.conn).2 }

/-- Execute a sequence of steps. -/
def run (s : Sys) (steps : List Step) : Sys :=
  steps.foldl stepRun s

/-! ### Lock discipline of the dispatch paths

To state where the exclusion lock is held relative to user-callback
invocation, the two dispatch functions are also rendered as traces of atomic
actions in source order. -/

/-- One atomic action of a dispatch path, in source order. -/
inductive DispatchAction where
  | lockAcquire : DispatchAction
  | lockRelease : DispatchAction
  | readTable : DispatchAction
  /-- A user-supplied callback (completion or listener) runs. -/
  | invokeCallback (id : Nat) : DispatchAction

/-- The actions `checkResult` performs on a line: lock, read the table entry,
unlock; then, if a callback was found, invoke it — the wrapped callback calls
the user's `f` first and only then re-acquires the lock to delete its
entry. -/
def checkResultTrace (s : Sys) (l : Line) : List DispatchAction :=
  match decodeCommandResult l with
  | none => []
  | some r =>
    if r.status = "" then []
    else
      [DispatchAction.lockAcquire, DispatchAction.readTable, DispatchAction.lockRelease] ++
        (if r.id ∈ s.conn.waitingRequests then
          [DispatchAction.invokeCallback r.id, DispatchAction.lockAcquire,
            DispatchAction.lockRelease]
        else [])

/-- The actions `checkEvent` performs on a line: lock, read the registry, and
invoke every registered listener before releasing the lock. -/
def checkEventTrace (s : Sys) (l : Line) : List DispatchAction :=
  match decodeEvent l with
  | none => []
  | some e =>
    if e.name = "" then []
    else
      [DispatchAction.lockAcquire, DispatchAction.readTable] ++
        s.conn.eventListeners.map DispatchAction.invokeCallback ++
        [DispatchAction.lockRelease]

/-- Does some callback invocation happen while the lock is held, starting
from lock depth `d`? -/
def anyInvokeLocked : Nat → List DispatchAction → Bool
  | _, [] => false
  | d, DispatchAction.lockAcquire :: rest => anyInvokeLocked (d + 1) rest
  | d, DispatchAction.lockRelease :: rest => anyInvokeLocked (d - 1) rest
  | d, DispatchAction.readTable :: rest => anyInvokeLocked d rest
  | d, DispatchAction.invokeCallback _ :: rest => decide (0 < d) || anyInvokeLocked d rest

/-- Does every callback invocation happen while the lock is held, starting
from lock depth `d`? -/
def allInvokesLocked : Nat → List DispatchAction → Bool
  | _, [] => true
  | d, DispatchAction.lockAcquire :: rest => allInvokesLocked (d + 1) rest
  | d, DispatchAction.lockRelease :: rest => allInvokesLocked (d - 1) rest
  | d, DispatchAction.readTable :: rest => allInvokesLocked d rest
  | d, DispatchAction.invokeCallback _ :: rest => decide (0 < d) && allInvokesLocked d rest

/-! ### Frame lemmas for the dispatch functions -/

theorem checkEvent_conn (s : Sys) (l : Line) : (checkEvent s l).conn = s.conn := by
  unfold checkEvent
  split
  · rfl
  · split <;> rfl

theorem checkEvent_resultTrace (s : Sys) (l : Line) :
    (checkEvent s l).resultTrace = s.resultTrace := by
  unfold checkEvent
  split
  · rfl
  · split <;> rfl

theorem checkResult_eventTrace (s : Sys) (l : Line) :
    (checkResult s l).eventTrace = s.eventTrace := by
  unfold checkResult
  split
  · rfl
  · split
    · rfl
    · split <;> rfl

theorem checkResult_eventListeners (s : Sys) (l : Line) :
    (checkResult s l).conn.eventListeners = s.conn.eventListeners := by
  unfold checkResult
  split
  · rfl
  · split
    · rfl
    · split <;> rfl

theorem checkResult_lastListener (s : Sys) (l : Line) :
    (checkResult s l).conn.lastListener = s.conn.lastListener := by
  unfold checkResult
  split
  · rfl
  · split
    · rfl
    · split <;> rfl

theorem checkResult_lastRequest (s : Sys) (l : Line) :
    (checkResult s l).conn.lastRequest = s.conn.lastRequest := by
  unfold checkResult
  split
  · rfl
  · split
    · rfl
    · split <;> rfl

/-! ### List helper lemmas -/

theorem filter_pair_eq_nil {uid : Nat} (e : Event) {L : List Nat} (h : uid ∉ L) :
    (L.map (fun lid => (lid, e))).filter (fun p => p.1 == uid) = [] := by
  induction L with
  | nil => rfl
  | cons x xs ih =>
    have hx : ¬ x = uid := by
      intro hx
      exact h (hx ▸ List.mem_cons_self x xs)
    have hxs : uid ∉ xs := fun hm => h (List.mem_cons_of_mem _ hm)
    simp [List.filter_cons, hx, ih hxs]

theorem filter_pair_eq_single {uid : Nat} (e : Event) {L : List Nat} (hn : L.Nodup)
    (hm : uid ∈ L) :
    (L.map (fun lid => (lid, e))).filter (fun p => p.1 == uid) = [(uid, e)] := by
  induction L with
  | nil => cases hm
  | cons x xs ih =>
    rcases List.mem_cons.mp hm with rfl | hm'
    · have hnin : uid ∉ xs := (List.nodup_cons.mp hn).1
      simp [List.filter_cons, filter_pair_eq_nil e hnin]
    · have hx : ¬ x = uid := by
        rintro rfl
        exact (List.nodup_cons.mp hn).1 hm'
      simp [List.filter_cons, hx, ih (List.nodup_cons.mp hn).2 hm']

/-! ### Invariant of reachable systems -/

/-- Invariant maintained by every step from the initial system: the tables
hold distinct ids bounded by their counters, the invocation trace fires each
callback id at most once and only for the matching result id, and a fired id
is no longer (and never again) in the pending table. -/
structure Reach (s : Sys) : Prop where
  wrBound : ∀ rid ∈ s.conn.waitingRequests, rid ≤ s.conn.lastRequest
  wrNodup : s.conn.waitingRequests.Nodup
  elBound : ∀ lid ∈ s.conn.eventListeners, lid ≤ s.conn.lastListener
  elNodup : s.conn.eventListeners.Nodup
  trNodup : (s.resultTrace.map ResultInvocation.cbId).Nodup
  trMatch : ∀ iv ∈ s.resultTrace, iv.cbId = iv.result.id
  trBound : ∀ iv ∈ s.resultTrace, iv.cbId ≤ s.conn.lastRequest
  trGone : ∀ iv ∈ s.resultTrace, iv.cbId ∉ s.conn.waitingRequests

theorem reach_init (socketName : String) : Reach (initSys socketName) := by
  refine ⟨?_, ?_, ?_, ?_, ?_, ?_, ?_, ?_⟩ <;> simp [initSys, newConnection]

theorem callAsync_state (hasF : Bool) (w1 w2 : Option String) (args : List JsonVal) (s : Sys) :
    (callAsync hasF w1 w2 args s).2 =
      { s with conn :=
        { s.conn with
          lastRequest := s.conn.lastRequest + 1
          waitingRequests :=
            if hasF then (s.conn.lastRequest + 1) :: s.conn.waitingRequests
            else s.conn.waitingRequests } } := rfl

theorem listenForEvents_state (s : Sys) :
    (listenForEvents s).2 =
      { s with conn :=
        { s.conn with
          lastListener := s.conn.lastListener + 1
          eventListeners := (s.conn.lastListener + 1) :: s.conn.eventListeners } } := rfl

theorem openConn_frame (dial : Except String Nat) (c : ConnState) :
    (openConn dial c).2.1.lastRequest = c.lastRequest ∧
    (openConn dial c).2.1.waitingRequests = c.waitingRequests ∧
    (openConn dial c).2.1.lastListener = c.lastListener ∧
    (openConn dial c).2.1.eventListeners = c.eventListeners := by
  unfold openConn
  split
  · exact ⟨rfl, rfl, rfl, rfl⟩
  · split <;> exact ⟨rfl, rfl, rfl, rfl⟩

theorem closeConn_frame (c : ConnState) :
    (closeConn c).2.lastRequest = c.lastRequest ∧
    (closeConn c).2.waitingRequests = c.waitingRequests ∧
    (closeConn c).2.lastListener = c.lastListener ∧
    (closeConn c).2.eventListeners = c.eventListeners := by
  unfold closeConn
  split <;> exact ⟨rfl, rfl, rfl, rfl⟩

theorem reach_callAsync {s : Sys} (h : Reach s) (hasF : Bool) (w1 w2 : Option String)
    (args : List JsonVal) : Reach (callAsync hasF w1 w2 args s).2 := by
  obtain ⟨wb, wn, eb, en, tn, tm, tb, tg⟩ := h
  rw [callAsync_state]
  cases hasF with
  | false =>
    refine ⟨?_, wn, eb, en, tn, tm, ?_, tg⟩
    · intro rid hrid
      exact Nat.le_succ_of_le (wb rid hrid)
    · intro iv hiv
      exact Nat.le_succ_of_le (tb iv hiv)
  | true =>
    refine ⟨?_, ?_, eb, en, tn, tm, ?_, ?_⟩
    · intro rid hrid
      rcases List.mem_cons.mp hrid with rfl | hmem
      · exact Nat.le_refl _
      · exact Nat.le_succ_of_le (wb rid hmem)
    · refine List.nodup_cons.mpr ⟨?_, wn⟩
      intro hmem
      exact Nat.not_succ_le_self _ (wb _ hmem)
    · intro iv hiv
      exact Nat.le_succ_of_le (tb iv hiv)
    · intro iv hiv
      intro hmem
      rcases List.mem_cons.mp hmem with heq | hmem'
      · exact Nat.not_succ_le_self _ (heq ▸ tb iv hiv)
      · exact tg iv hiv hmem'

theorem reach_checkEvent {s : Sys} (h : Reach s) (l : Line) : Reach (checkEvent s l) := by
  obtain ⟨wb, wn, eb, en, tn, tm, tb, tg⟩ := h
  constructor <;> simp only [checkEvent_conn, checkEvent_resultTrace] <;> assumption

theorem reach_checkResult {s : Sys} (h : Reach s) (l : Line) : Reach (checkResult s l) := by
  obtain ⟨wb, wn, eb, en, tn, tm, tb, tg⟩ := h
  rcases hd : decodeCommandResult l with _ | r
  · simp only [checkResult, hd]
    exact ⟨wb, wn, eb, en, tn, tm, tb, tg⟩
  simp only [checkResult, hd]
  by_cases hst : r.status = ""
  · simp only [if_pos hst]
    exact ⟨wb, wn, eb, en, tn, tm, tb, tg⟩
  simp only [if_neg hst]
  by_cases hmem : r.id ∈ s.conn.waitingRequests
  · simp only [if_pos hmem]
    refine ⟨?_, List.Nodup.erase _ wn, eb, en, ?_, ?_, ?_, ?_⟩
    · intro rid hrid
      exact wb rid (List.mem_of_mem_erase hrid)
    · show ((s.resultTrace ++ [ResultInvocation.mk r.id r (completionValue r)
        (completionError r)]).map ResultInvocation.cbId).Nodup
      rw [List.map_append]
      refine List.Nodup.append tn (List.nodup_singleton _) ?_
      intro a ha hb
      rcases List.mem_map.mp ha with ⟨iv, hiv, hcb⟩
      have : a = r.id := by simpa using hb
      exact tg iv hiv (by rw [hcb, this]; exact hmem)
    · intro iv hiv
      rcases List.mem_append.mp hiv with hold | hnew
      · exact tm iv hold
      · have : iv = ResultInvocation.mk r.id r (completionValue r) (completionError r) := by
          simpa using hnew
        rw [this]
    · intro iv hiv
      rcases List.mem_append.mp hiv with hold | hnew
      · exact tb iv hold
      · have : iv = ResultInvocation.mk r.id r (completionValue r) (completionError r) := by
          simpa using hnew
        rw [this]
        exact wb _ hmem
    · intro iv hiv hmem2
      rcases List.mem_append.mp hiv with hold | hnew
      · exact tg iv hold (List.mem_of_mem_erase hmem2)
      · have : iv = ResultInvocation.mk r.id r (completionValue r) (completionError r) := by
          simpa using hnew
        rw [this] at hmem2
        exact ((List.Nodup.mem_erase_iff wn).mp hmem2).1 rfl
  · simp only [if_neg hmem]
    exact ⟨wb, wn, eb, en, tn, tm, tb, tg⟩

theorem reach_listen {s : Sys} (h : Reach s) : Reach (listenForEvents s).2 := by
  obtain ⟨wb, wn, eb, en, tn, tm, tb, tg⟩ := h
  rw [listenForEvents_state]
  refine ⟨wb, wn, ?_, ?_, tn, tm, tb, tg⟩
  · intro lid hlid
    rcases List.mem_cons.mp hlid with rfl | hmem
    · exact Nat.le_refl _
    · exact Nat.le_succ_of_le (eb lid hmem)
  · refine List.nodup_cons.mpr ⟨?_, en⟩
    intro hmem
    exact Nat.not_succ_le_self _ (eb _ hmem)

theorem reach_unlisten {s : Sys} (h : Reach s) (uid : Nat) : Reach (unlisten uid s) := by
  obtain ⟨wb, wn, eb, en, tn, tm, tb, tg⟩ := h
  refine ⟨wb, wn, ?_, List.Nodup.erase _ en, tn, tm, tb, tg⟩
  intro lid hlid
  exact eb lid (List.mem_of_mem_erase hlid)

theorem reach_step {s : Sys} (h : Reach s) (st : Step) : Reach (stepRun s st) := by
  cases st with
  | callAsyncStep hasF w1 w2 args => exact reach_callAsync h hasF w1 w2 args
  | procLine l => exact reach_checkResult (reach_checkEvent h l) l
  | listenStep => exact reach_listen h
  | unlistenStep uid => exact reach_unlisten h uid
  | openStep dial =>
    obtain ⟨wb, wn, eb, en, tn, tm, tb, tg⟩ := h
    obtain ⟨f1, f2, f3, f4⟩ := openConn_frame dial s.conn
    show Reach { s with conn := (openConn dial s.conn).2.1 }
    constructor <;> simp only [f1, f2, f3, f4] <;> assumption
  | closeStep =>
    obtain ⟨wb, wn, eb, en, tn, tm, tb, tg⟩ := h
    obtain ⟨f1, f2, f3, f4⟩ := closeConn_frame s.conn
    show Reach { s with conn := (closeConn s.conn).2 }
    constructor <;> simp only [f1, f2, f3, f4] <;> assumption

theorem reach_run {s : Sys} (h : Reach s) (steps : List Step) : Reach (run s steps) := by
  induction steps generalizing s with
  | nil => exact h
  | cons st rest ih => exact ih (reach_step h st)

/-! ### Once unregistered, a listener id stays dead -/

/-- After a listener id has been removed while being at most the allocated
counter value, it is not registered, the counter still dominates it, and the
portion of the event trace concerning it is frozen at `tr`. -/
def Blocked (uid : Nat) (tr : List (Nat × Event)) (s : Sys) : Prop :=
  uid ≤ s.conn.lastListener ∧ uid ∉ s.conn.eventListeners ∧
    s.eventTrace.filter (fun p => p.1 == uid) = tr

theorem blocked_checkEvent {uid : Nat} {tr : List (Nat × Event)} {s : Sys}
    (h : Blocked uid tr s) (l : Line) : Blocked uid tr (checkEvent s l) := by
  obtain ⟨h1, h2, h3⟩ := h
  refine ⟨by rw [checkEvent_conn]; exact h1, by rw [checkEvent_conn]; exact h2, ?_⟩
  rcases hd : decodeEvent l with _ | e
  · simp only [checkEvent, hd]
    exact h3
  simp only [checkEvent, hd]
  by_cases hn : e.name = ""
  · simp only [if_pos hn]
    exact h3
  simp only [if_neg hn]
  show (s.eventTrace ++ s.conn.eventListeners.map (fun lid => (lid, e))).filter
      (fun p => p.1 == uid) = tr
  rw [List.filter_append, filter_pair_eq_nil e h2, List.append_nil]
  exact h3

theorem blocked_checkResult {uid : Nat} {tr : List (Nat × Event)} {s : Sys}
    (h : Blocked uid tr s) (l : Line) : Blocked uid tr (checkResult s l) := by
  obtain ⟨h1, h2, h3⟩ := h
  exact ⟨by rw [checkResult_lastListener]; exact h1,
    by rw [checkResult_eventListeners]; exact h2,
    by rw [checkResult_eventTrace]; exact h3⟩

theorem blocked_step {uid : Nat} {tr : List (Nat × Event)} {s : Sys}
    (h : Blocked uid tr s) (st : Step) : Blocked uid tr (stepRun s st) := by
  obtain ⟨h1, h2, h3⟩ := h
  cases st with
  | callAsyncStep hasF w1 w2 args =>
    rw [show stepRun s (Step.callAsyncStep hasF w1 w2 args) = (callAsync hasF w1 w2 args s).2
      from rfl, callAsync_state]
    exact ⟨h1, h2, h3⟩
  | procLine l => exact blocked_checkResult (blocked_checkEvent ⟨h1, h2, h3⟩ l) l
  | listenStep =>
    rw [show stepRun s Step.listenStep = (listenForEvents s).2 from rfl, listenForEvents_state]
    refine ⟨Nat.le_succ_of_le h1, ?_, h3⟩
    intro hmem
    rcases List.mem_cons.mp hmem with rfl | hmem'
    · exact Nat.not_succ_le_self _ h1
    · exact h2 hmem'
  | unlistenStep uid' =>
    exact ⟨h1, fun hmem => h2 (List.mem_of_mem_erase hmem), h3⟩
  | openStep dial =>
    obtain ⟨_, _, f3, f4⟩ := openConn_frame dial s.conn
    show Blocked uid tr { s with conn := (openConn dial s.conn).2.1 }
    exact ⟨by rw [show ({ s with conn := (openConn dial s.conn).2.1 } : Sys).conn.lastListener
        = (openConn dial s.conn).2.1.lastListener from rfl, f3]; exact h1,
      by rw [show ({ s with conn := (openConn dial s.conn).2.1 } : Sys).conn.eventListeners
        = (openConn dial s.conn).2.1.eventListeners from rfl, f4]; exact h2, h3⟩
  | closeStep =>
    obtain ⟨_, _, f3, f4⟩ := closeConn_frame s.conn
    show Blocked uid tr { s with conn := (closeConn s.conn).2 }
    exact ⟨by rw [show ({ s with conn := (closeConn s.conn).2 } : Sys).conn.lastListener
        = (closeConn s.conn).2.lastListener from rfl, f3]; exact h1,
      by rw [show ({ s with conn := (closeConn s.conn).2 } : Sys).conn.eventListeners
        = (closeConn s.conn).2.eventListeners from rfl, f4]; exact h2, h3⟩

theorem blocked_run {uid : Nat} {tr : List (Nat × Event)} {s : Sys}
    (h : Blocked uid tr s) (steps : List Step) : Blocked uid tr (run s steps) := by
  induction steps generalizing s with
  | nil => exact h
  | cons st rest ih => exact ih (blocked_step h st)

/-! ### Concrete wire fixtures -/

/-- The inbound line `{"event":"pause"}`. -/
def pauseLine : Line :=
  Line.obj [("event", JsonVal.str "pause")]

/-- The event `{"event":"pause"}` decodes to: name "pause", every other field
at its zero value. -/
def pauseEvent : Event :=
  ⟨"pause", "", "", "", "", 0, JsonVal.null, ""⟩

/-- The inbound line `{"error":"success","data":3.5,"request_id":7}`. -/
def successLine : Line :=
  Line.obj [("error", JsonVal.str "success"), ("data", JsonVal.num (3.5 : ℚ)),
    ("request_id", JsonVal.num 7)]

/-- The inbound line `{"error":"property not found","data":null,"request_id":7}`. -/
def notFoundLine : Line :=
  Line.obj [("error", JsonVal.str "property not found"), ("data", JsonVal.null),
    ("request_id", JsonVal.num 7)]

/-- A system with a completion callback pending under request id 7. -/
def sysPending7 : Sys :=
  { conn :=
    { client := none
      socketName := "sock"
      lastRequest := 7
      waitingRequests := [7]
      lastListener := 0
      eventListeners := [] }
    resultTrace := []
    eventTrace := [] }

/-! ### The claims -/

/-- C1: for every sequence of `CallAsync` invocations and inbound result lines
processed by the reader loop (interleaved arbitrarily with the other façade
operations), each registered completion callback is invoked at most once, only
for a `CommandResult` whose request id equals the id allocated to that
`CallAsync` at call time, and once it has fired its pending-table entry is
removed (the id is never pending again). -/
theorem completion_callback_at_most_once (socketName : String) (steps : List Step) :
    ((run (initSys socketName) steps).resultTrace.map ResultInvocation.cbId).Nodup
    ∧ (∀ iv ∈ (run (initSys socketName) steps).resultTrace, iv.cbId = iv.result.id)
    ∧ ∀ iv ∈ (run (initSys socketName) steps).resultTrace,
        iv.cbId ∉ (run (initSys socketName) steps).conn.waitingRequests := by
  obtain ⟨_, _, _, _, tn, tm, _, tg⟩ := reach_run (reach_init socketName) steps
  exact ⟨tn, tm, tg⟩

theorem completion_callback_at_most_once_witness :
    (ResultInvocation.mk 1 (CommandResult.mk "success" JsonVal.null 1) JsonVal.null none).cbId
      = (ResultInvocation.mk 1 (CommandResult.mk "success" JsonVal.null 1)
          JsonVal.null none).result.id :=
  (completion_callback_at_most_once "sock"
      [Step.callAsyncStep true none none [JsonVal.str "get_version"],
        Step.procLine (Line.obj [("error", JsonVal.str "success"),
          ("request_id", JsonVal.num 1)])]).2.1
    (ResultInvocation.mk 1 (CommandResult.mk "success" JsonVal.null 1) JsonVal.null none)
    (List.mem_singleton_self _)

/-- C3: when the reader loop processes `{"error":"success","data":3.5,"request_id":7}`
while a completion is pending under id 7, that completion receives the value
`3.5` and a nil error; when it processes
`{"error":"property not found","data":null,"request_id":7}` under the same
precondition, the completion receives a nil value and the protocol error
"mpv error: property not found". -/
theorem result_dispatch_value_and_error (s : Sys) (h : 7 ∈ s.conn.waitingRequests) :
    (processLine s successLine).resultTrace
      = s.resultTrace ++ [ResultInvocation.mk 7
          (CommandResult.mk "success" (JsonVal.num (3.5 : ℚ)) 7) (JsonVal.num (3.5 : ℚ)) none]
    ∧ (processLine s notFoundLine).resultTrace
      = s.resultTrace ++ [ResultInvocation.mk 7
          (CommandResult.mk "property not found" JsonVal.null 7) JsonVal.null
          (some "mpv error: property not found")] := by
  constructor
  · show (checkResult (checkEvent s successLine) successLine).resultTrace = _
    rw [show checkEvent s successLine = s from rfl]
    simp only [checkResult,
      show decodeCommandResult successLine
        = some (CommandResult.mk "success" (JsonVal.num (3.5 : ℚ)) 7) from rfl]
    rw [if_neg (by decide : ¬("success" = "")), if_pos h]
    rfl
  · show (checkResult (checkEvent s notFoundLine) notFoundLine).resultTrace = _
    rw [show checkEvent s notFoundLine = s from rfl]
    simp only [checkResult,
      show decodeCommandResult notFoundLine
        = some (CommandResult.mk "property not found" JsonVal.null 7) from rfl]
    rw [if_neg (by decide : ¬("property not found" = "")), if_pos h]
    rfl

theorem result_dispatch_value_and_error_witness :
    7 ∈ sysPending7.conn.waitingRequests
    ∧ (processLine sysPending7 successLine).resultTrace
      = sysPending7.resultTrace ++ [ResultInvocation.mk 7
          (CommandResult.mk "success" (JsonVal.num (3.5 : ℚ)) 7) (JsonVal.num (3.5 : ℚ)) none] :=
  ⟨by decide, (result_dispatch_value_and_error sysPending7 (by decide)).1⟩

/-- C4: when the reader loop processes the line `{"event":"pause"}` in any
reachable system, every currently registered listener is invoked exactly once,
with an event whose name is "pause" and whose reason, prefix, level, text, id,
data and error fields are all at their zero values. -/
theorem pause_event_invokes_each_listener_once (socketName : String) (steps : List Step) :
    (processLine (run (initSys socketName) steps) pauseLine).eventTrace
      = (run (initSys socketName) steps).eventTrace
        ++ (run (initSys socketName) steps).conn.eventListeners.map (fun lid => (lid, pauseEvent))
    ∧ (∀ lid ∈ (run (initSys socketName) steps).conn.eventListeners,
        ((processLine (run (initSys socketName) steps) pauseLine).eventTrace.drop
            (run (initSys socketName) steps).eventTrace.length).filter (fun p => p.1 == lid)
          = [(lid, pauseEvent)])
    ∧ pauseEvent = Event.mk "pause" "" "" "" "" 0 JsonVal.null "" := by
  refine ⟨rfl, ?_, rfl⟩
  intro lid hmem
  obtain ⟨_, _, _, en, _, _, _, _⟩ := reach_run (reach_init socketName) steps
  rw [show (processLine (run (initSys socketName) steps) pauseLine).eventTrace
      = (run (initSys socketName) steps).eventTrace
        ++ (run (initSys socketName) steps).conn.eventListeners.map (fun l2 => (l2, pauseEvent))
    from rfl]
  rw [List.drop_left]
  exact filter_pair_eq_single pauseEvent en hmem

theorem pause_event_invokes_each_listener_once_witness :
    1 ∈ (run (initSys "sock") [Step.listenStep]).conn.eventListeners
    ∧ ((processLine (run (initSys "sock") [Step.listenStep]) pauseLine).eventTrace.drop
          (run (initSys "sock") [Step.listenStep]).eventTrace.length).filter (fun p => p.1 == 1)
      = [(1, pauseEvent)] :=
  ⟨by decide, (pause_event_invokes_each_listener_once "sock" [Step.listenStep]).2.1 1 (by decide)⟩

/-- C5: once the unregistration closure returned by `ListenForEvents` has run
for a listener id that was actually allocated, no event processed afterwards
ever invokes that listener again (its slice of the event trace is frozen), and
invoking the closure when the id is already absent from the registry leaves
the system unchanged. -/
theorem unregistered_listener_never_invoked (socketName : String)
    (steps1 steps2 : List Step) (uid : Nat)
    (hreg : uid ≤ (run (initSys socketName) steps1).conn.lastListener) :
    ((run (unlisten uid (run (initSys socketName) steps1)) steps2).eventTrace.filter
        (fun p => p.1 == uid))
      = ((run (initSys socketName) steps1).eventTrace.filter (fun p => p.1 == uid))
    ∧ ∀ s : Sys, uid ∉ s.conn.eventListeners → unlisten uid s = s := by
  constructor
  · obtain ⟨_, _, _, en, _, _, _, _⟩ := reach_run (reach_init socketName) steps1
    have hb : Blocked uid
        ((run (initSys socketName) steps1).eventTrace.filter (fun p => p.1 == uid))
        (unlisten uid (run (initSys socketName) steps1)) := by
      refine ⟨hreg, ?_, rfl⟩
      intro hmem
      exact ((List.Nodup.mem_erase_iff en).mp hmem).1 rfl
    exact (blocked_run hb steps2).2.2
  · intro s hnot
    show { s with conn := { s.conn with eventListeners := s.conn.eventListeners.erase uid } } = s
    rw [List.erase_of_not_mem hnot]

theorem unregistered_listener_never_invoked_witness :
    1 ≤ (run (initSys "sock") [Step.listenStep]).conn.lastListener
    ∧ ((run (unlisten 1 (run (initSys "sock") [Step.listenStep]))
          [Step.procLine pauseLine]).eventTrace.filter (fun p => p.1 == 1))
      = ((run (initSys "sock") [Step.listenStep]).eventTrace.filter (fun p => p.1 == 1)) :=
  ⟨by decide,
    (unregistered_listener_never_invoked "sock" [Step.listenStep] [Step.procLine pauseLine] 1
      (by decide)).1⟩

/-- C6: `SendCommand` on a connection whose stream handle is nil returns the
NotOpenError, performs no write on the stream, and leaves the connection state
unchanged. -/
theorem sendCommand_closed_no_write (c : ConnState) (id : Nat) (args : List JsonVal)
    (w1 w2 : Option String) (h : c.client = none) :
    sendCommand w1 w2 c id args
      = (some "trying to send command on closed mpv client", [], c) := by
  simp [sendCommand, h]

theorem sendCommand_closed_no_write_witness :
    (newConnection "sock").client = none
    ∧ sendCommand none none (newConnection "sock") 1 [JsonVal.str "get_version"]
      = (some "trying to send command on closed mpv client", [], newConnection "sock") :=
  ⟨rfl, sendCommand_closed_no_write (newConnection "sock") 1 [JsonVal.str "get_version"]
    none none rfl⟩

/-- C7: `IsClosed` is true immediately after `NewConnection`, true immediately
after `Close`, true after the reader loop terminates (it calls `Close`), and
false immediately after a successful `Open` (which also reports no error). -/
theorem isClosed_lifecycle (socketName : String) (c c2 : ConnState) (hdl : Nat)
    (hopen : c.client = none) :
    isClosed (newConnection socketName) = true
    ∧ isClosed (closeConn c2).2 = true
    ∧ isClosed (listenTerminate c2).2 = true
    ∧ (openConn (Except.ok hdl) c).1 = none
    ∧ isClosed (openConn (Except.ok hdl) c).2.1 = false := by
  refine ⟨rfl, ?_, ?_, ?_, ?_⟩
  · rcases hc : c2.client with _ | cl <;> simp [closeConn, isClosed, hc]
  · rcases hc : c2.client with _ | cl <;> simp [listenTerminate, closeConn, isClosed, hc]
  · simp [openConn, hopen]
  · simp [openConn, isClosed, hopen]

theorem isClosed_lifecycle_witness :
    (newConnection "sock").client = none
    ∧ isClosed (newConnection "sock") = true
    ∧ (openConn (Except.ok 0) (newConnection "sock")).1 = none
    ∧ isClosed (openConn (Except.ok 0) (newConnection "sock")).2.1 = false :=
  ⟨rfl, (isClosed_lifecycle "sock" (newConnection "sock") (newConnection "sock") 0 rfl).1,
    (isClosed_lifecycle "sock" (newConnection "sock") (newConnection "sock") 0 rfl).2.2.2.1,
    (isClosed_lifecycle "sock" (newConnection "sock") (newConnection "sock") 0 rfl).2.2.2.2⟩

/-- C8: when `CallAsync` registers a completion callback and the subsequent
send fails, the error `CallAsync` returns is exactly the `SendCommand` error,
and the pending-request table still contains the entry registered under the
freshly allocated id (nothing removes it on the failure path). -/
theorem send_failure_keeps_pending_entry (s : Sys) (w1 w2 : Option String)
    (args : List JsonVal) (hfail : (callAsync true w1 w2 args s).1 ≠ none) :
    (s.conn.lastRequest + 1) ∈ (callAsync true w1 w2 args s).2.conn.waitingRequests
    ∧ (callAsync true w1 w2 args s).1
      = (sendCommand w1 w2 (callAsync true w1 w2 args s).2.conn
          (s.conn.lastRequest + 1) args).1 := by
  constructor
  · rw [callAsync_state]
    exact List.mem_cons_self _ _
  · rfl

theorem send_failure_keeps_pending_entry_witness :
    (callAsync true none none [JsonVal.str "get_version"] (initSys "sock")).1 ≠ none
    ∧ ((initSys "sock").conn.lastRequest + 1)
      ∈ (callAsync true none none [JsonVal.str "get_version"]
          (initSys "sock")).2.conn.waitingRequests :=
  ⟨by decide,
    (send_failure_keeps_pending_entry (initSys "sock") none none [JsonVal.str "get_version"]
      (by decide)).1⟩

/-- C2: the claim says that when `CallAsync` fails to send, `Call` returns
immediately with that send error.  The code does return immediately, but it
executes `return nil, err` — returning the named result `err` (still nil at
that point) instead of the send error `callErr`.  On a closed connection the
send fails with the NotOpenError, yet `Call` reports a nil error. -/
theorem call_send_failure_returns_nil_error :
    (call none none [JsonVal.str "get_version"] (initSys "sock")).1
      = CallReturn.returned JsonVal.null none
    ∧ (callAsync true none none [JsonVal.str "get_version"] (initSys "sock")).1
      = some "trying to send command on closed mpv client" :=
  ⟨rfl, rfl⟩

/-- C9 counterexample: with one registered listener, processing
`{"event":"pause"}` invokes the listener while the exclusion lock is held, so
it is false that no user callback runs under the lock. -/
theorem event_dispatch_invokes_under_lock :
    anyInvokeLocked 0 (checkEventTrace (run (initSys "sock") [Step.listenStep]) pauseLine)
      = true := rfl

/-- C9 (amended): result dispatch holds the lock only while reading the
pending table and releases it before invoking the completion callback; event
dispatch, by contrast, invokes every registered listener while still holding
the lock, releasing it only after the last listener returns. -/
theorem dispatch_lock_discipline (s : Sys) (l : Line) :
    anyInvokeLocked 0 (checkResultTrace s l) = false
    ∧ allInvokesLocked 0 (checkEventTrace s l) = true := by
  constructor
  · rcases hd : decodeCommandResult l with _ | r
    · simp [checkResultTrace, hd, anyInvokeLocked]
    simp only [checkResultTrace, hd]
    by_cases hst : r.status = ""
    · simp [if_pos hst, anyInvokeLocked]
    simp only [if_neg hst]
    by_cases hmem : r.id ∈ s.conn.waitingRequests
    · simp only [if_pos hmem]
      rfl
    · simp only [if_neg hmem]
      rfl
  · rcases hd : decodeEvent l with _ | e
    · simp [checkEventTrace, hd, allInvokesLocked]
    simp only [checkEventTrace, hd]
    by_cases hn : e.name = ""
    · simp [if_pos hn, allInvokesLocked]
    simp only [if_neg hn]
    have step2 : ∀ L : List Nat,
        allInvokesLocked 1 (L.map DispatchAction.invokeCallback ++ [DispatchAction.lockRelease])
          = true := by
      intro L
      induction L with
      | nil => rfl
      | cons x xs ih => simpa [allInvokesLocked] using ih
    show allInvokesLocked 0
        ([DispatchAction.lockAcquire, DispatchAction.readTable]
          ++ s.conn.eventListeners.map DispatchAction.invokeCallback
          ++ [DispatchAction.lockRelease]) = true
    rw [List.append_assoc, List.cons_append, List.cons_append, List.nil_append]
    show allInvokesLocked 1
        (s.conn.eventListeners.map DispatchAction.invokeCallback
          ++ [DispatchAction.lockRelease]) = true
    exact step2 s.conn.eventListeners

/-- C10: when the transport dial inside `Open` fails, `Open` returns the
ConnectError wrapping the dial error, the connection state is returned
untouched (handle still nil, tables and counters unchanged), no reader loop
is started, and `IsClosed` is still true. -/
theorem open_dial_failure_state_unchanged (c : ConnState) (e : String)
    (hc : c.client = none) :
    openConn (Except.error e) c = (some ("can't connect to mpv's socket: " ++ e), c, false)
    ∧ isClosed c = true := by
  constructor
  · simp [openConn, hc]
  · simp [isClosed, hc]

theorem open_dial_failure_state_unchanged_witness :
    (newConnection "sock").client = none
    ∧ openConn (Except.error "no such file") (newConnection "sock")
      = (some ("can't connect to mpv's socket: " ++ "no such file"), newConnection "sock", false) :=
  ⟨rfl, (open_dial_failure_state_unchanged (newConnection "sock") "no such file" rfl).1⟩

end Mpvipc
